import Mathlib

/-!
Shallow embedding of the workset lease/assignment subsystem of
`src/workset_auto_assigner.py` (class WorksetAutoAssigner) together with the
materializer contract of `src/workset_utils.py` (create_workset_file).

The shared blob store is modelled as an explicit state record: the worker
task record files under annotators/, the usage-statistics object
system/workset_usage_stats.json, the formal lock files under system/locks,
the materialized workset files under coding_result/, and the assignment log.
JSON dictionaries are modelled as association lists read through the first
matching key (a Python dictionary holds each key once).  Store operations
whose failure some claim depends on are parameterized by explicit boolean
flags (a failed upload leaves the stored object unchanged, a failed read
takes the function's exception path); wall-clock time, the randomized waits
and the streamlit messages are dropped, since no claim mentions them.
-/

namespace AnnotationTool

/-- Task statuses appearing in worker record files; the repository reads and
writes exactly these three values (workset_auto_assigner.py and
annotator_workset_manager.py). -/
inductive Status where
  | not_started
  | in_progress
  | completed
deriving DecidableEq, Repr

/-- First-match lookup in an association list. -/
def alookup {α : Type} (m : List (String × α)) (k : String) : Option α :=
  match m with
  | [] => none
  | (k', v) :: rest => if k' = k then some v else alookup rest k

/-- Python dict assignment `d[k] = v`: replace the first binding of the key
in place, else append a fresh binding. -/
def aset {α : Type} (m : List (String × α)) (k : String) (v : α) : List (String × α) :=
  match m with
  | [] => [(k, v)]
  | (k', v') :: rest => if k' = k then (k, v) :: rest else (k', v') :: aset rest k v

/-- Python `del d[k]`: remove the first binding of the key. -/
def aremove {α : Type} (m : List (String × α)) (k : String) : List (String × α) :=
  match m with
  | [] => []
  | (k', v') :: rest => if k' = k then rest else (k', v') :: aremove rest k

/-- Python `k in d`. -/
def akey {α : Type} (m : List (String × α)) (k : String) : Bool :=
  m.any (fun p => p.1 == k)

/-- Python `d.get(k, 0)` on a workset_usage dictionary. -/
def lookupCount (m : List (String × Nat)) (k : String) : Nat :=
  (alookup m k).getD 0

/-- One row of a worker's record CSV.  The columns `assigned_at` and
`assignment_type` written by the assigner never influence any branch of the
subsystem, so they are not carried. -/
structure TaskRow where
  workset : String
  status : Status
  autoAssigned : Bool
deriving DecidableEq, Repr

/-- The blob store contents this subsystem reads and writes.  `records` maps a
username to the parsed rows of `annotators/{u}/{u}_record.csv` (no entry means
the file is absent); `usageStats` is the `workset_usage` dictionary of
`system/workset_usage_stats.json` (`none` means the object is absent);
`locks` maps a workset id to the owner of `system/locks/{w}_lock.json`;
`codingFiles` lists the materialized `coding_result/{u}/{w}.csv` objects;
`logRows` is `system/workset_assignment_log.csv`. -/
structure StoreState where
  records : List (String × List TaskRow)
  usageStats : Option (List (String × Nat))
  locks : List (String × String)
  codingFiles : List (String × String)
  logRows : List (String × String)
deriving DecidableEq, Repr

/-- Statuses selected by `record_df['status'].isin(['in_progress', 'not_started'])`. -/
def isPending (s : Status) : Bool :=
  match s with
  | .not_started => true
  | .in_progress => true
  | .completed => false

/-- `_has_pending_worksets` (success path): an absent or empty record file means
a new user with no pending work. -/
def has_pending_worksets (recs : List (String × List TaskRow)) (username : String) : Bool :=
  match alookup recs username with
  | some rows => rows.any (fun r => isPending r.status)
  | none => false

/-- `_has_completed_workset`: a row for the workset with status completed. -/
def has_completed_workset (recs : List (String × List TaskRow)) (username w : String) : Bool :=
  match alookup recs username with
  | some rows => rows.any (fun r => r.workset == w && r.status == Status.completed)
  | none => false

/-- Pandas test `workset_name in record_df['workset'].values` on one record. -/
def recordUsesWorkset (rows : List TaskRow) (w : String) : Bool :=
  rows.any (fun r => r.workset == w)

/-- Number of record files listing the workset at least once (each user's file
contributes at most one, whatever the statuses of its rows). -/
def distinctWorkerCount (recs : List (String × List TaskRow)) (w : String) : Nat :=
  recs.countP (fun p => recordUsesWorkset p.2 w)

/-- `_get_real_time_usage_count`: scan every record file.  `storeErr` models the
function's own except branch (an exception raised inside its body), which
returns 999.  Note that a failing STORE never takes this branch: the storage
helpers catch their own exceptions, `list_files` returning [] and
`download_csv` returning None, so a store failure produces an undercount
instead — that behavior is modelled by `get_real_time_usage_count_scan`. -/
def get_real_time_usage_count (recs : List (String × List TaskRow)) (w : String)
    (storeErr : Bool) : Nat :=
  if storeErr then 999 else distinctWorkerCount recs w

/-- `_get_real_time_usage_count` with the store interactions of its scan made
explicit, as the storage layer actually behaves on failure: a failing
`list_files` catches its exception and returns [], so the loop body never runs
and the count is 0 (`listOk = false`); a failing `download_csv` for one record
file returns None and that file is merely skipped (`fetchOk` names the files
whose download succeeds).  No store failure raises, so the except → 999 branch
is never reached by a store error. -/
def get_real_time_usage_count_scan (recs : List (String × List TaskRow)) (w : String)
    (listOk : Bool) (fetchOk : String → Bool) : Nat :=
  if listOk then distinctWorkerCount (recs.filter (fun p => fetchOk p.1)) w else 0

/-- First-occurrence duplicate removal, as pandas `Series.unique`. -/
def uniqueList : List String → List String
  | [] => []
  | x :: xs => x :: uniqueList (xs.filter (fun y => !(y == x)))
termination_by l => l.length
decreasing_by simp_wf; exact Nat.lt_succ_of_le (List.length_filter_le _ _)

/-- The distinct workset ids of one record, `record_df['workset'].dropna().unique()`. -/
def worksetsOf (rows : List TaskRow) : List String :=
  uniqueList (rows.map (fun r => r.workset))

/-- The per-record accumulation `usage_count[workset] = usage_count.get(workset, 0) + 1`
over that record's distinct workset ids. -/
def bumpCounts (m : List (String × Nat)) (ws : List String) : List (String × Nat) :=
  ws.foldl (fun acc w => aset acc w (lookupCount acc w + 1)) m

/-- `_generate_usage_statistics`: scan every `_record.csv`, counting each
workset once per record regardless of row status. -/
def generate_usage_statistics (recs : List (String × List TaskRow)) : List (String × Nat) :=
  recs.foldl (fun acc p => bumpCounts acc (worksetsOf p.2)) []

/-- State effect of `_generate_usage_statistics`: it also uploads the scanned
result as the new usage-statistics object. -/
def generateUsageStep (st : StoreState) : (List (String × Nat)) × StoreState :=
  let g := generate_usage_statistics st.records
  (g, { st with usageStats := some g })

/-- `_get_usage_statistics`: return the persisted dictionary when the object is
present, otherwise regenerate from a scan of all records. -/
def get_usage_statistics (st : StoreState) : (List (String × Nat)) × StoreState :=
  match st.usageStats with
  | some m => (m, st)
  | none => generateUsageStep st

/-- Python formatting `f"workset_{i:03d}"`, for the arguments used here (i ≤ 999). -/
def pad3 (i : Nat) : String :=
  if i < 10 then "00" ++ toString i
  else if i < 100 then "0" ++ toString i
  else toString i

/-- Name of the i-th workset of the fixed namespace. -/
def worksetName (i : Nat) : String := "workset_" ++ pad3 i

/-- The loop-body test of `_find_available_workset` for candidate i: usage
below 3 and not previously completed by this user. -/
def eligibleWorkset (stats : List (String × Nat)) (recs : List (String × List TaskRow))
    (username : String) (i : Nat) : Bool :=
  decide (lookupCount stats (worksetName i) < 3) &&
    !(has_completed_workset recs username (worksetName i))

/-- `_find_available_workset`: read the usage statistics, then walk
workset_001 .. workset_100 in ascending numeric order and return the first
candidate passing `eligibleWorkset`. -/
def find_available_workset (st : StoreState) (username : String) :
    Option String × StoreState :=
  let p := get_usage_statistics st
  (((List.range' 1 100).find? (eligibleWorkset p.1 p.2.records username)).map worksetName,
    p.2)

/-- `_is_workset_still_available`: re-read the statistics and re-test the cap. -/
def is_workset_still_available (st : StoreState) (w : String) : Bool × StoreState :=
  let p := get_usage_statistics st
  (decide (lookupCount p.1 w < 3), p.2)

/-- The count `_update_usage_statistics_safely` observes for the workset right
before incrementing: the persisted count, except that when it differs from the
expected count by more than 1 the self-healing regeneration replaces the whole
dictionary by a fresh scan first. -/
def observedLedgerCount (st : StoreState) (w : String) (expected : Nat) : Nat :=
  let m0 := st.usageStats.getD []
  if Nat.dist (lookupCount m0 w) expected > 1 then
    lookupCount (generate_usage_statistics st.records) w
  else lookupCount m0 w

/-- `_update_usage_statistics_safely`: re-read the dictionary (absent object
means a fresh empty one), regenerate when the persisted count is more than 1
away from the expected count, then refuse when the incremented count would
exceed 3, else persist the increment. -/
def update_usage_statistics_safely (st : StoreState) (w : String) (expected : Nat) :
    Bool × StoreState :=
  let m0 := st.usageStats.getD []
  let regen := Nat.dist (lookupCount m0 w) expected > 1
  let m1 := if regen then generate_usage_statistics st.records else m0
  let st1 := if regen then { st with usageStats := some m1 } else st
  let newCount := lookupCount m1 w + 1
  if newCount > 3 then (false, st1)
  else (true, { st1 with usageStats := some (aset m1 w newCount) })

/-- `_rollback_usage_statistics`: decrement the count; Python deletes the key
when `count - 1 <= 0`, so any count ≤ 1 ends with the key removed. -/
def rollback_usage_statistics (st : StoreState) (w : String) : StoreState :=
  match st.usageStats with
  | none => st
  | some m =>
    if akey m w then
      if lookupCount m w ≤ 1 then { st with usageStats := some (aremove m w) }
      else { st with usageStats := some (aset m w (lookupCount m w - 1)) }
    else st

/-- The row `_add_workset_to_user_record` appends. -/
def newTaskRow (w : String) : TaskRow :=
  { workset := w, status := Status.not_started, autoAssigned := true }

/-- `_add_workset_to_user_record`; `uploadOk` models the upload_csv result, and
a failed upload leaves the stored record unchanged. -/
def add_workset_to_user_record (st : StoreState) (username w : String) (uploadOk : Bool) :
    Bool × StoreState :=
  if uploadOk then
    let rows := (alookup st.records username).getD []
    (true, { st with records := aset st.records username (rows ++ [newTaskRow w]) })
  else (false, st)

/-- `_remove_workset_from_user_record` (compensation): drop the auto-assigned
rows of this workset from the user's record. -/
def remove_workset_from_user_record (st : StoreState) (username w : String) : StoreState :=
  match alookup st.records username with
  | none => st
  | some rows =>
    let kept := rows.filter (fun r => !(r.workset == w && r.autoAssigned))
    { st with records := aset st.records username kept }

/-- `workset_utils.create_workset_file` (the materializer): write the worker's
private copy; `ok` models the dataset download and the upload succeeding. -/
def create_workset_file (st : StoreState) (username w : String) (ok : Bool) :
    Bool × StoreState :=
  if ok then (true, { st with codingFiles := (username, w) :: st.codingFiles })
  else (false, st)

/-- `_log_assignment`: append one row to the assignment audit log. -/
def log_assignment (st : StoreState) (username w : String) : StoreState :=
  { st with logRows := st.logRows ++ [(username, w)] }

/-- Failure-mode switches of one commit: an exception raised inside
`_get_real_time_usage_count`'s own body (its except → 999 branch; a failing
store helper never raises and so never sets this flag), the record upload of
step (d), and the materializer of step (e). -/
structure CommitEnv where
  realTimeErr : Bool
  addRowOk : Bool
  materializeOk : Bool
deriving DecidableEq, Repr

/-- `_complete_workset_assignment`: completed-workset guard, real-time cap
check, ledger increment, record append (ledger rolled back on failure), file
materialization (ledger and record rolled back on failure), audit log. -/
def complete_workset_assignment (st : StoreState) (username w : String) (env : CommitEnv) :
    Bool × StoreState :=
  if has_completed_workset st.records username w then (false, st)
  else
    let currentUsage := get_real_time_usage_count st.records w env.realTimeErr
    if currentUsage ≥ 3 then (false, st)
    else
      let r1 := update_usage_statistics_safely st w currentUsage
      if !r1.1 then (false, r1.2)
      else
        let r2 := add_workset_to_user_record r1.2 username w env.addRowOk
        if !r2.1 then (false, rollback_usage_statistics r2.2 w)
        else
          let r3 := create_workset_file r2.2 username w env.materializeOk
          if !r3.1 then
            (false, remove_workset_from_user_record (rollback_usage_statistics r3.2 w) username w)
          else (true, log_assignment r3.2 username w)

/-- `_complete_workset_assignment` with the real-time scan's store interactions
made explicit: identical to `complete_workset_assignment` except that the
commit-time count is the one `_get_real_time_usage_count` actually produces
under store-helper failures (`get_real_time_usage_count_scan`), since those
failures never raise into the except → 999 branch. -/
def complete_workset_assignment_scan (st : StoreState) (username w : String)
    (listOk : Bool) (fetchOk : String → Bool) (addRowOk materializeOk : Bool) :
    Bool × StoreState :=
  if has_completed_workset st.records username w then (false, st)
  else
    let currentUsage := get_real_time_usage_count_scan st.records w listOk fetchOk
    if currentUsage ≥ 3 then (false, st)
    else
      let r1 := update_usage_statistics_safely st w currentUsage
      if !r1.1 then (false, r1.2)
      else
        let r2 := add_workset_to_user_record r1.2 username w addRowOk
        if !r2.1 then (false, rollback_usage_statistics r2.2 w)
        else
          let r3 := create_workset_file r2.2 username w materializeOk
          if !r3.1 then
            (false, remove_workset_from_user_record (rollback_usage_statistics r3.2 w) username w)
          else (true, log_assignment r3.2 username w)

/-- `_try_acquire_workset_lock`: the announce/settle competition decides `won`
(the timestamp race is external nondeterminism); the winner writes the formal
lock file, a loser only deletes its own competition file. -/
def try_acquire_workset_lock (st : StoreState) (w username : String) (won : Bool) :
    Bool × StoreState :=
  if won then (true, { st with locks := aset st.locks w username })
  else (false, st)

/-- `_release_workset_lock`: delete the formal lock only when the caller owns it. -/
def release_workset_lock (st : StoreState) (w username : String) : StoreState :=
  match alookup st.locks w with
  | some owner => if owner == username then { st with locks := aremove st.locks w } else st
  | none => st

/-- The external outcomes of one pass of the retry loop of `request_new_workset`. -/
structure AttemptEnv where
  lockWon : Bool
  commit : CommitEnv
deriving DecidableEq, Repr

/-- The retry loop of `request_new_workset`, one `AttemptEnv` per attempt (the
source runs max_attempts = 5): find a candidate, race for its lock, re-check
availability, commit, and always release the lock afterwards. -/
def requestAttempts (st : StoreState) (username : String) :
    List AttemptEnv → Option String × StoreState
  | [] => (none, st)
  | env :: rest =>
    let r0 := find_available_workset st username
    match r0.1 with
    | none => (none, r0.2)
    | some w =>
      let r1 := try_acquire_workset_lock r0.2 w username env.lockWon
      if r1.1 then
        let r2 := is_workset_still_available r1.2 w
        if r2.1 then
          let r3 := complete_workset_assignment r2.2 username w env.commit
          let st' := release_workset_lock r3.2 w username
          if r3.1 then (some w, st') else requestAttempts st' username rest
        else requestAttempts (release_workset_lock r2.2 w username) username rest
      else requestAttempts r1.2 username rest

/-- `request_new_workset`: fail fast when the worker still has a pending row,
otherwise run the bounded retry loop. -/
def request_new_workset (st : StoreState) (username : String) (envs : List AttemptEnv) :
    Option String × StoreState :=
  if has_pending_worksets st.records username then (none, st)
  else requestAttempts st username envs

/-- The store after one whole `request_new_workset` call: one assignment
operation of a history, given the worker requesting and the attempt outcomes. -/
def requestStep (st : StoreState) (op : String × List AttemptEnv) : StoreState :=
  (request_new_workset st op.1 op.2).2

/-- The rows of worker u's record whose workset column is k. -/
def rowsFor (recs : List (String × List TaskRow)) (u k : String) : List TaskRow :=
  ((alookup recs u).getD []).filter (fun r => r.workset == k)

/-- One competing entry collected by `_win_competition` for the target workset
(the fields it reads from each competition file). -/
structure Competitor where
  owner : String
  competitionId : String
  timestamp : String
deriving DecidableEq, Repr

/-- Stable insertion by timestamp.  Python's `list.sort(key=timestamp)` is
stable: among equal timestamps the original listing order is kept, which this
insertion reproduces. -/
def insertByTimestamp (c : Competitor) : List Competitor → List Competitor
  | [] => [c]
  | d :: ds =>
    if d.timestamp < c.timestamp then d :: insertByTimestamp c ds else c :: d :: ds

/-- Stable sort of the competition entries by timestamp alone. -/
def sortByTimestamp : List Competitor → List Competitor
  | [] => []
  | c :: cs => insertByTimestamp c (sortByTimestamp cs)

/-- `_win_competition` on the collected competing entries: sort by timestamp
and test whether the earliest entry is the requester's own. -/
def win_competition (competitors : List Competitor) (username competitionId : String) : Bool :=
  match sortByTimestamp competitors with
  | [] => false
  | winner :: _ => winner.owner == username && winner.competitionId == competitionId

/-- The specification's settle-phase order, written from the spec's words:
earlier timestamp first, timestamp ties broken by the competitor id in
lexicographic order. -/
def specSettleLe (a b : Competitor) : Prop :=
  a.timestamp < b.timestamp ∨ (a.timestamp = b.timestamp ∧ a.competitionId ≤ b.competitionId)

/-- The specification's winner condition, written from the spec's words: the
requester's own entry is the minimum of the competition entries under
`specSettleLe`. -/
def specDeclaredWinner (competitors : List Competitor) (username competitionId : String) :
    Prop :=
  ∃ c ∈ competitors, c.owner = username ∧ c.competitionId = competitionId ∧
    ∀ d ∈ competitors, specSettleLe c d

/-- The entry at position i is the first entry of the list attaining the
minimal timestamp. -/
def firstTimestampMinimum (l : List Competitor) (i : Fin l.length) : Prop :=
  (∀ d ∈ l, (l.get i).timestamp ≤ d.timestamp) ∧
  (∀ j : Fin l.length, (j : Nat) < (i : Nat) → (l.get i).timestamp < (l.get j).timestamp)

/-- Two same-timestamp competition entries, listed with the lexicographically
larger competitor id first. -/
def cexCompetitors : List Competitor :=
  [{ owner := "alice", competitionId := "z", timestamp := "t" },
   { owner := "bob", competitionId := "a", timestamp := "t" }]

/-- A record row with the given workset and status, as the assigner writes it. -/
def sampleRow (w : String) (s : Status) : TaskRow :=
  { workset := w, status := s, autoAssigned := true }

/-- A store state with the given records and usage statistics and nothing else. -/
def mkStore (recs : List (String × List TaskRow)) (stats : Option (List (String × Nat))) :
    StoreState :=
  { records := recs, usageStats := stats, locks := [], codingFiles := [], logRows := [] }

/-- Three workers already holding workset_001: its distinct-worker count is at
the cap of 3. -/
def cexRecords : List (String × List TaskRow) :=
  [("a1", [sampleRow "workset_001" Status.completed]),
   ("a2", [sampleRow "workset_001" Status.in_progress]),
   ("a3", [sampleRow "workset_001" Status.not_started])]

instance (a b : Competitor) : Decidable (specSettleLe a b) := by
  unfold specSettleLe; infer_instance

instance (competitors : List Competitor) (username competitionId : String) :
    Decidable (specDeclaredWinner competitors username competitionId) := by
  unfold specDeclaredWinner; infer_instance

instance (l : List Competitor) (i : Fin l.length) : Decidable (firstTimestampMinimum l i) := by
  unfold firstTimestampMinimum; infer_instance

/-- Occurrences of a string in a list. -/
def scount (x : String) (l : List String) : Nat :=
  l.countP (fun y => y == x)

theorem alookup_aset_self {α : Type} (m : List (String × α)) (k : String) (v : α) :
    alookup (aset m k v) k = some v := by
  induction m with
  | nil => simp [aset, alookup]
  | cons p rest ih =>
    obtain ⟨k', v'⟩ := p
    by_cases h : k' = k
    · simp [aset, alookup, h]
    · simp [aset, alookup, h, ih]

theorem alookup_aset_ne {α : Type} (m : List (String × α)) (k k' : String) (v : α)
    (h : k' ≠ k) : alookup (aset m k v) k' = alookup m k' := by
  have h' : ¬ (k = k') := fun hh => h hh.symm
  induction m with
  | nil => simp [aset, alookup, h']
  | cons p rest ih =>
    obtain ⟨k₀, v₀⟩ := p
    by_cases hk : k₀ = k
    · subst hk
      simp [aset, alookup, h']
    · simp [aset, alookup, hk, ih]

theorem lookupCount_aset_self (m : List (String × Nat)) (k : String) (v : Nat) :
    lookupCount (aset m k v) k = v := by
  simp [lookupCount, alookup_aset_self]

theorem lookupCount_aset_ne (m : List (String × Nat)) (k k' : String) (v : Nat)
    (h : k' ≠ k) : lookupCount (aset m k v) k' = lookupCount m k' := by
  simp [lookupCount, alookup_aset_ne m k k' v h]

theorem aset_of_alookup_none {α : Type} (m : List (String × α)) (k : String) (v : α)
    (h : alookup m k = none) : aset m k v = m ++ [(k, v)] := by
  induction m with
  | nil => simp [aset]
  | cons p rest ih =>
    obtain ⟨k₀, v₀⟩ := p
    by_cases hk : k₀ = k
    · simp [alookup, hk] at h
    · simp [alookup, hk] at h
      simp [aset, hk, ih h]

theorem aremove_aset {α : Type} (m : List (String × α)) (k : String) (v : α) :
    aremove (aset m k v) k = aremove m k := by
  induction m with
  | nil => simp [aset, aremove]
  | cons p rest ih =>
    obtain ⟨k₀, v₀⟩ := p
    by_cases hk : k₀ = k
    · simp [aset, aremove, hk]
    · simp [aset, aremove, hk, ih]

theorem alookup_eq_none_of_not_mem {α : Type} (m : List (String × α)) (k : String)
    (h : k ∉ m.map Prod.fst) : alookup m k = none := by
  induction m with
  | nil => rfl
  | cons p rest ih =>
    obtain ⟨k₀, v₀⟩ := p
    simp only [List.map_cons, List.mem_cons] at h
    push_neg at h
    have hne : ¬ (k₀ = k) := fun hh => h.1 hh.symm
    simp [alookup, hne, ih h.2]

theorem alookup_aremove_self {α : Type} (m : List (String × α)) (k : String)
    (hnd : (m.map Prod.fst).Nodup) : alookup (aremove m k) k = none := by
  induction m with
  | nil => simp [aremove, alookup]
  | cons p rest ih =>
    obtain ⟨k₀, v₀⟩ := p
    simp only [List.map_cons, List.nodup_cons] at hnd
    by_cases hk : k₀ = k
    · subst hk
      simp only [aremove, if_pos rfl]
      exact alookup_eq_none_of_not_mem rest k₀ hnd.1
    · simp only [aremove, if_neg hk, alookup, if_neg hk]
      exact ih hnd.2

theorem akey_eq_isSome {α : Type} (m : List (String × α)) (k : String) :
    akey m k = (alookup m k).isSome := by
  induction m with
  | nil => rfl
  | cons p rest ih =>
    obtain ⟨k₀, v₀⟩ := p
    by_cases hk : k₀ = k
    · simp [akey, alookup, hk]
    · have hb : (k₀ == k) = false := by
        simpa using hk
      simp [akey, alookup, hk, hb]
      simpa [akey] using ih

theorem akey_aset_self {α : Type} (m : List (String × α)) (k : String) (v : α) :
    akey (aset m k v) k = true := by
  simp [akey_eq_isSome, alookup_aset_self]

theorem countP_aset_none {α : Type} (m : List (String × α)) (k : String) (v : α)
    (q : String × α → Bool) (h : alookup m k = none) :
    (aset m k v).countP q = m.countP q + (if q (k, v) then 1 else 0) := by
  rw [aset_of_alookup_none m k v h, List.countP_append]
  simp [List.countP_cons]

theorem countP_aset_some {α : Type} (m : List (String × α)) (k : String) (v old : α)
    (q : String × α → Bool) (h : alookup m k = some old) :
    (aset m k v).countP q + (if q (k, old) then 1 else 0)
      = m.countP q + (if q (k, v) then 1 else 0) := by
  induction m with
  | nil => simp [alookup] at h
  | cons p rest ih =>
    obtain ⟨k₀, v₀⟩ := p
    by_cases hk : k₀ = k
    · subst hk
      have hv : v₀ = old := by simpa [alookup] using h
      subst hv
      have ha : aset ((k₀, v₀) :: rest) k₀ v = (k₀, v) :: rest := by simp [aset]
      rw [ha]
      simp only [List.countP_cons]
      omega
    · simp only [alookup, if_neg hk] at h
      simp only [aset, if_neg hk, List.countP_cons]
      have hih := ih h
      omega

theorem countP_aset_le {α : Type} (m : List (String × α)) (k : String) (v : α)
    (q : String × α → Bool) :
    (aset m k v).countP q ≤ m.countP q + (if q (k, v) then 1 else 0) := by
  cases h : alookup m k with
  | none => exact Nat.le_of_eq (countP_aset_none m k v q h)
  | some old =>
    have := countP_aset_some m k v old q h
    omega

theorem recordUses_filter_imp (rows : List TaskRow) (p : TaskRow → Bool) (k : String)
    (h : recordUsesWorkset (rows.filter p) k = true) : recordUsesWorkset rows k = true := by
  simp only [recordUsesWorkset, List.any_eq_true] at h ⊢
  obtain ⟨r, hr, hk⟩ := h
  exact ⟨r, List.mem_of_mem_filter hr, hk⟩

theorem recordUses_remove_ne (rows : List TaskRow) (w k : String) (h : k ≠ w) :
    recordUsesWorkset (rows.filter (fun r => !(r.workset == w && r.autoAssigned))) k
      = recordUsesWorkset rows k := by
  induction rows with
  | nil => rfl
  | cons r rest ih =>
    by_cases hkeep : (r.workset == w && r.autoAssigned) = true
    · have hw : r.workset = w := beq_iff_eq.mp ((Bool.and_eq_true _ _).mp hkeep).1
      have hk : (r.workset == k) = false := by
        rw [hw]
        simpa using fun hh => h hh.symm
      have hf : List.filter (fun x => !(x.workset == w && x.autoAssigned)) (r :: rest)
          = List.filter (fun x => !(x.workset == w && x.autoAssigned)) rest := by
        simp [List.filter_cons, hkeep]
        exact ⟨hw, ((Bool.and_eq_true _ _).mp hkeep).2⟩
      unfold recordUsesWorkset at ih ⊢
      rw [hf, ih, List.any_cons, hk, Bool.false_or]
    · have hb : (r.workset == w && r.autoAssigned) = false := by simpa using hkeep
      have hf : List.filter (fun x => !(x.workset == w && x.autoAssigned)) (r :: rest)
          = r :: List.filter (fun x => !(x.workset == w && x.autoAssigned)) rest := by
        simp [List.filter_cons, hb]
        intro hw'
        simpa [hw'] using hb
      unfold recordUsesWorkset at ih ⊢
      rw [hf, List.any_cons, List.any_cons, ih]

theorem recordUses_append_ne (rows : List TaskRow) (w k : String) (h : k ≠ w) :
    recordUsesWorkset (rows ++ [newTaskRow w]) k = recordUsesWorkset rows k := by
  have hk : (w == k) = false := by
    simpa using fun hh => h hh.symm
  simp [recordUsesWorkset, newTaskRow, hk]

theorem records_generateUsageStep (st : StoreState) :
    (generateUsageStep st).2.records = st.records := rfl

theorem records_get_usage_statistics (st : StoreState) :
    (get_usage_statistics st).2.records = st.records := by
  unfold get_usage_statistics
  split <;> rfl

theorem records_find_available (st : StoreState) (u : String) :
    (find_available_workset st u).2.records = st.records := by
  simpa [find_available_workset] using records_get_usage_statistics st

theorem records_is_still_available (st : StoreState) (w : String) :
    (is_workset_still_available st w).2.records = st.records := by
  simpa [is_workset_still_available] using records_get_usage_statistics st

theorem records_update_safely (st : StoreState) (w : String) (e : Nat) :
    (update_usage_statistics_safely st w e).2.records = st.records := by
  unfold update_usage_statistics_safely
  dsimp only
  split <;> split <;> rfl

theorem records_rollback (st : StoreState) (w : String) :
    (rollback_usage_statistics st w).records = st.records := by
  unfold rollback_usage_statistics
  split
  · rfl
  · split
    · split <;> rfl
    · rfl

theorem locks_rollback (st : StoreState) (w : String) :
    (rollback_usage_statistics st w).locks = st.locks := by
  unfold rollback_usage_statistics
  split
  · rfl
  · split
    · split <;> rfl
    · rfl

theorem records_try_acquire (st : StoreState) (w u : String) (b : Bool) :
    (try_acquire_workset_lock st w u b).2.records = st.records := by
  unfold try_acquire_workset_lock
  split <;> rfl

theorem records_release (st : StoreState) (w u : String) :
    (release_workset_lock st w u).records = st.records := by
  unfold release_workset_lock
  split
  · split <;> rfl
  · rfl

theorem records_create_workset_file (st : StoreState) (u w : String) (b : Bool) :
    (create_workset_file st u w b).2.records = st.records := by
  unfold create_workset_file
  split <;> rfl

theorem records_log_assignment (st : StoreState) (u w : String) :
    (log_assignment st u w).records = st.records := rfl

theorem usageStats_add_record (st : StoreState) (u w : String) (b : Bool) :
    (add_workset_to_user_record st u w b).2.usageStats = st.usageStats := by
  unfold add_workset_to_user_record
  split <;> rfl

theorem usageStats_remove_record (st : StoreState) (u w : String) :
    (remove_workset_from_user_record st u w).usageStats = st.usageStats := by
  unfold remove_workset_from_user_record
  split <;> rfl

theorem usageStats_create_workset_file (st : StoreState) (u w : String) (b : Bool) :
    (create_workset_file st u w b).2.usageStats = st.usageStats := by
  unfold create_workset_file
  split <;> rfl

theorem lookupCount_bumpCounts (ws : List String) (m : List (String × Nat)) (w : String) :
    lookupCount (bumpCounts m ws) w = lookupCount m w + scount w ws := by
  induction ws generalizing m with
  | nil => simp [bumpCounts, scount]
  | cons w' rest ih =>
    have hb : bumpCounts m (w' :: rest)
        = bumpCounts (aset m w' (lookupCount m w' + 1)) rest := rfl
    rw [hb, ih]
    by_cases hw : w' = w
    · subst hw
      rw [lookupCount_aset_self]
      simp [scount, List.countP_cons]
      omega
    · rw [lookupCount_aset_ne m w' w _ (fun hh => hw hh.symm)]
      have hs : scount w (w' :: rest) = scount w rest := by
        simp [scount, List.countP_cons, hw]
      omega

theorem scount_uniqueList (l : List String) (x : String) :
    scount x (uniqueList l) = if x ∈ l then 1 else 0 := by
  induction l using uniqueList.induct with
  | case1 => simp [uniqueList, scount]
  | case2 y ys ih =>
    have hu : uniqueList (y :: ys) = y :: uniqueList (ys.filter (fun z => !(z == y))) := by
      rw [uniqueList]
    rw [hu]
    by_cases hx : x = y
    · subst hx
      have hnm : x ∉ ys.filter (fun z => !(z == x)) := by
        simp [List.mem_filter]
      simp [scount, List.countP_cons]
      have hih := ih
      rw [if_neg hnm] at hih
      simpa [scount] using hih
    · have hmem : (x ∈ ys.filter (fun z => !(z == y))) ↔ x ∈ ys := by
        simp [List.mem_filter, hx]
      have hb : (y == x) = false := by
        simpa using fun hh => hx hh.symm
      have hih := ih
      simp only [scount, List.countP_cons, hb] at hih ⊢
      rw [hih]
      by_cases hys : x ∈ ys
      · simp [hmem, hys, hx]
      · simp [hmem, hys, hx]

theorem scount_worksetsOf (rows : List TaskRow) (w : String) :
    scount w (worksetsOf rows) = if recordUsesWorkset rows w then 1 else 0 := by
  unfold worksetsOf
  rw [scount_uniqueList]
  have hiff : (w ∈ rows.map (fun r => r.workset)) ↔ recordUsesWorkset rows w = true := by
    simp only [recordUsesWorkset, List.any_eq_true, List.mem_map, beq_iff_eq]
  by_cases hm : recordUsesWorkset rows w = true
  · rw [if_pos (hiff.mpr hm), if_pos hm]
  · rw [if_neg (fun hh => hm (hiff.mp hh)), if_neg hm]

theorem lookupCount_generate_aux (recs : List (String × List TaskRow))
    (acc : List (String × Nat)) (w : String) :
    lookupCount (recs.foldl (fun a p => bumpCounts a (worksetsOf p.2)) acc) w
      = lookupCount acc w + distinctWorkerCount recs w := by
  induction recs generalizing acc with
  | nil => simp [distinctWorkerCount]
  | cons p rest ih =>
    simp only [List.foldl_cons]
    rw [ih, lookupCount_bumpCounts, scount_worksetsOf]
    simp only [distinctWorkerCount, List.countP_cons]
    omega

theorem lookupCount_generate (recs : List (String × List TaskRow)) (w : String) :
    lookupCount (generate_usage_statistics recs) w = distinctWorkerCount recs w := by
  have h := lookupCount_generate_aux recs [] w
  rw [show lookupCount ([] : List (String × Nat)) w = 0 from rfl, Nat.zero_add] at h
  exact h

theorem usageStats_rollback (st : StoreState) (w : String) :
    (rollback_usage_statistics st w).usageStats = st.usageStats
      ∨ ∃ m, st.usageStats = some m ∧
        ((rollback_usage_statistics st w).usageStats = some (aremove m w)
          ∨ (rollback_usage_statistics st w).usageStats = some (aset m w (lookupCount m w - 1))) := by
  unfold rollback_usage_statistics
  split
  · exact Or.inl rfl
  · rename_i m hm
    split
    · split
      · exact Or.inr ⟨m, by simpa using hm, Or.inl rfl⟩
      · exact Or.inr ⟨m, by simpa using hm, Or.inr rfl⟩
    · exact Or.inl rfl

theorem find?_min_of_pairwise {p : Nat → Bool} {a : Nat} :
    ∀ l : List Nat, List.Pairwise (· < ·) l → l.find? p = some a →
      p a = true ∧ ∀ b ∈ l, b < a → p b = false := by
  intro l
  induction l with
  | nil => intro _ hf; simp at hf
  | cons x t ih =>
    intro hp hf
    cases hx : p x with
    | true =>
      have ha : a = x := by
        simp [List.find?, hx] at hf
        exact hf.symm
      subst ha
      refine ⟨hx, ?_⟩
      intro b hb hba
      rcases List.mem_cons.mp hb with hbx | hbt
      · exact absurd hba (by simp [hbx])
      · exact absurd hba (Nat.not_lt.mpr (Nat.le_of_lt ((List.pairwise_cons.mp hp).1 b hbt)))
    | false =>
      have hf' : t.find? p = some a := by
        simpa [List.find?, hx] using hf
      have hih := ih (List.pairwise_cons.mp hp).2 hf'
      refine ⟨hih.1, ?_⟩
      intro b hb hba
      rcases List.mem_cons.mp hb with hbx | hbt
      · rw [hbx]; exact hx
      · exact hih.2 b hbt hba

/-- C8: `_find_available_workset` walks workset_001 .. workset_100 in ascending
numeric order: whatever the statistics and record state, a returned id is the
numerically smallest candidate whose usage count is below 3 and which the
requesting worker has not completed, and when no candidate in the namespace is
eligible it returns no assignment. -/
theorem find_available_selects_least (st : StoreState) (u : String) :
    (∀ w, (find_available_workset st u).1 = some w →
      ∃ i, 1 ≤ i ∧ i ≤ 100 ∧ w = worksetName i ∧
        eligibleWorkset (get_usage_statistics st).1 st.records u i = true ∧
        ∀ j, 1 ≤ j → j < i →
          eligibleWorkset (get_usage_statistics st).1 st.records u j = false) ∧
    ((find_available_workset st u).1 = none →
      ∀ i, 1 ≤ i → i ≤ 100 →
        eligibleWorkset (get_usage_statistics st).1 st.records u i = false) := by
  have hq : (find_available_workset st u).1
      = ((List.range' 1 100).find?
          (eligibleWorkset (get_usage_statistics st).1 st.records u)).map worksetName := by
    unfold find_available_workset
    dsimp only
    rw [records_get_usage_statistics]
  constructor
  · intro w hw
    rw [hq] at hw
    rcases Option.map_eq_some'.mp hw with ⟨i, hfind, hname⟩
    have hmin := find?_min_of_pairwise (List.range' 1 100) (List.pairwise_lt_range' 1 100) hfind
    have hmem := List.mem_of_find?_eq_some hfind
    have hbounds := List.mem_range'_1.mp hmem
    refine ⟨i, hbounds.1, by omega, hname.symm, hmin.1, ?_⟩
    intro j hj1 hji
    exact hmin.2 j (List.mem_range'_1.mpr ⟨hj1, by omega⟩) hji
  · intro hnone i hi1 hi100
    rw [hq] at hnone
    have hfin : (List.range' 1 100).find?
        (eligibleWorkset (get_usage_statistics st).1 st.records u) = none := by
      cases hf : (List.range' 1 100).find?
          (eligibleWorkset (get_usage_statistics st).1 st.records u) with
      | none => rfl
      | some a => rw [hf] at hnone; simp at hnone
    have := List.find?_eq_none.mp hfin i (List.mem_range'_1.mpr ⟨hi1, by omega⟩)
    simpa using this

theorem sortByTimestamp_head_firstMin :
    ∀ (l : List Competitor), l ≠ [] →
      ∃ i : Fin l.length,
        (sortByTimestamp l).head? = some (l.get i) ∧ firstTimestampMinimum l i := by
  intro l
  induction l with
  | nil => intro h; exact absurd rfl h
  | cons a t ih =>
    intro _
    rcases eq_or_ne t [] with ht | ht
    · subst ht
      refine ⟨⟨0, by simp⟩, rfl, ?_, ?_⟩
      · intro d hd
        rcases List.mem_singleton.mp hd with rfl
        exact le_refl _
      · intro j hj
        exact absurd hj (by simp)
    · obtain ⟨i', hhead', hmin'⟩ := ih ht
      cases hs : sortByTimestamp t with
      | nil => rw [hs] at hhead'; simp at hhead'
      | cons m rest =>
        rw [hs] at hhead'
        have hm : m = t.get i' := by simpa using hhead'
        have hsc : sortByTimestamp (a :: t) = insertByTimestamp a (m :: rest) := by
          rw [sortByTimestamp, hs]
        by_cases hlt : m.timestamp < a.timestamp
        · have hins : insertByTimestamp a (m :: rest) = m :: insertByTimestamp a rest := by
            rw [insertByTimestamp, if_pos hlt]
          have hbound : i'.val + 1 < (a :: t).length := by
            simp
          have hget : (a :: t).get ⟨i'.val + 1, hbound⟩ = t.get i' := by
            rcases i' with ⟨iv, hiv⟩
            rfl
          refine ⟨⟨i'.val + 1, hbound⟩, ?_, ?_, ?_⟩
          · rw [hsc, hins, hget, ← hm]
            rfl
          · intro d hd
            rw [hget]
            rcases List.mem_cons.mp hd with rfl | hdt
            · exact le_of_lt (hm ▸ hlt)
            · exact hmin'.1 d hdt
          · intro j hj
            rw [hget]
            rcases j with ⟨jv, hjv⟩
            cases jv with
            | zero => exact hm ▸ hlt
            | succ jj =>
              have hjj : jj < t.length := by
                simpa using Nat.lt_of_succ_lt_succ hjv
              have hgj : (a :: t).get ⟨jj + 1, hjv⟩ = t.get ⟨jj, hjj⟩ := rfl
              rw [hgj]
              exact hmin'.2 ⟨jj, hjj⟩ (Nat.lt_of_succ_lt_succ hj)
        · have hle : a.timestamp ≤ m.timestamp := le_of_not_lt hlt
          have hins : insertByTimestamp a (m :: rest) = a :: m :: rest := by
            rw [insertByTimestamp, if_neg hlt]
          refine ⟨⟨0, by simp⟩, ?_, ?_, ?_⟩
          · rw [hsc, hins]
            rfl
          · intro d hd
            rcases List.mem_cons.mp hd with rfl | hdt
            · exact le_refl _
            · exact le_trans hle (hm ▸ hmin'.1 d hdt)
          · intro j hj
            exact absurd hj (by simp)

theorem sortByTimestamp_head_of_firstMin (l : List Competitor) (i : Fin l.length)
    (hmin : firstTimestampMinimum l i) :
    (sortByTimestamp l).head? = some (l.get i) := by
  have hne : l ≠ [] := by
    intro h
    subst h
    exact absurd i.isLt (by simp)
  obtain ⟨i₀, hhead, hmin₀⟩ := sortByTimestamp_head_firstMin l hne
  have hval : i.val = i₀.val := by
    by_contra hcon
    rcases Nat.lt_or_ge i.val i₀.val with hlt | hge
    · have h1 := hmin₀.2 i hlt
      have h2 := hmin.1 (l.get i₀) (l.get_mem i₀.1 i₀.2)
      exact absurd h1 (not_lt.mpr h2)
    · have hlt : i₀.val < i.val := by omega
      have h1 := hmin.2 i₀ hlt
      have h2 := hmin₀.1 (l.get i) (l.get_mem i.1 i.2)
      exact absurd h1 (not_lt.mpr h2)
  have hii : i = i₀ := Fin.ext hval
  rw [hii]
  exact hhead

/-- C3 (amended): in the settle phase, the requester is declared winner exactly
when its own entry is the first entry of the competition list attaining the
minimal timestamp: ties in timestamp are resolved by position in the listing
order (Python's stable sort), not by the competitor id. -/
theorem win_competition_first_listed_min (comps : List Competitor) (u cid : String) :
    win_competition comps u cid = true ↔
      ∃ i : Fin comps.length, (comps.get i).owner = u ∧ (comps.get i).competitionId = cid ∧
        firstTimestampMinimum comps i := by
  constructor
  · intro hw
    cases hs : sortByTimestamp comps with
    | nil =>
      rw [win_competition, hs] at hw
      simp at hw
    | cons winner rest =>
      have hw' : (winner.owner == u && winner.competitionId == cid) = true := by
        rw [win_competition, hs] at hw
        exact hw
      have hne : comps ≠ [] := by
        intro h
        subst h
        simp [sortByTimestamp] at hs
      obtain ⟨i, hhead, hmin⟩ := sortByTimestamp_head_firstMin comps hne
      rw [hs] at hhead
      have hwinner : winner = comps.get i := by simpa using hhead
      have hy := (Bool.and_eq_true _ _).mp hw'
      refine ⟨i, ?_, ?_, hmin⟩
      · rw [← hwinner]
        exact beq_iff_eq.mp hy.1
      · rw [← hwinner]
        exact beq_iff_eq.mp hy.2
  · rintro ⟨i, ho, hcid, hmin⟩
    have hhead := sortByTimestamp_head_of_firstMin comps i hmin
    cases hs : sortByTimestamp comps with
    | nil =>
      rw [hs] at hhead
      simp at hhead
    | cons winner rest =>
      rw [hs] at hhead
      have hwinner : winner = comps.get i := by simpa using hhead
      rw [win_competition, hs, hwinner]
      simp only [Bool.and_eq_true, beq_iff_eq]
      exact ⟨ho, hcid⟩

/-- C3 counterexample: with the two same-timestamp entries alice(id "z") listed
before bob(id "a"), the spec order makes bob's entry the minimum (smaller
competitor id), yet `_win_competition` declares bob a loser, because the code
sorts by timestamp only and the stable sort keeps alice first. -/
theorem win_competition_spec_counterexample :
    ¬ (win_competition cexCompetitors "bob" "a" = true ↔
        specDeclaredWinner cexCompetitors "bob" "a") := by
  intro hiff
  have hins : insertByTimestamp ⟨"alice", "z", "t"⟩ [⟨"bob", "a", "t"⟩]
      = [⟨"alice", "z", "t"⟩, ⟨"bob", "a", "t"⟩] := by
    rw [insertByTimestamp, if_neg]
    exact lt_irrefl _
  have hsort : sortByTimestamp cexCompetitors
      = [⟨"alice", "z", "t"⟩, ⟨"bob", "a", "t"⟩] := by
    show insertByTimestamp ⟨"alice", "z", "t"⟩ [⟨"bob", "a", "t"⟩] = _
    exact hins
  have hwin : win_competition cexCompetitors "bob" "a" = false := by
    rw [win_competition, hsort]
    decide
  have hspec : specDeclaredWinner cexCompetitors "bob" "a" := by
    refine ⟨⟨"bob", "a", "t"⟩, by simp [cexCompetitors], rfl, rfl, ?_⟩
    intro d hd
    simp only [cexCompetitors, List.mem_cons, List.mem_singleton] at hd
    rcases hd with hd | hd
    · subst hd
      exact Or.inr ⟨rfl, le_of_lt (String.lt_iff_toList_lt.mpr (by decide))⟩
    · rcases hd with rfl | hf
      · exact Or.inr ⟨rfl, le_refl _⟩
      · exact absurd hf (List.not_mem_nil d)
  have := hiff.mpr hspec
  rw [hwin] at this
  exact Bool.false_ne_true this

theorem fst_add_record (st : StoreState) (u w : String) (b : Bool) :
    (add_workset_to_user_record st u w b).1 = b := by
  cases b <;> rfl

theorem fst_create_workset_file (st : StoreState) (u w : String) (b : Bool) :
    (create_workset_file st u w b).1 = b := by
  cases b <;> rfl

theorem records_add_record_true (st : StoreState) (u w : String) :
    (add_workset_to_user_record st u w true).2.records
      = aset st.records u ((alookup st.records u).getD [] ++ [newTaskRow w]) := rfl

theorem records_add_record_false (st : StoreState) (u w : String) :
    (add_workset_to_user_record st u w false).2.records = st.records := rfl

theorem countP_aset_le_of_filter (m : List (String × List TaskRow)) (u : String)
    (rows' : List TaskRow) (p : TaskRow → Bool) (k : String)
    (h : alookup m u = some rows') :
    distinctWorkerCount (aset m u (rows'.filter p)) k ≤ distinctWorkerCount m k := by
  have hs := countP_aset_some m u (rows'.filter p) rows'
    (fun q => recordUsesWorkset q.2 k) h
  unfold distinctWorkerCount
  by_cases hf : recordUsesWorkset (rows'.filter p) k = true
  · have hful := recordUses_filter_imp rows' p k hf
    simp [hf, hful] at hs
    omega
  · have hf' : recordUsesWorkset (rows'.filter p) k = false := by
      simpa using hf
    simp [hf'] at hs
    omega

theorem distinct_remove_le (st : StoreState) (u w k : String) :
    distinctWorkerCount (remove_workset_from_user_record st u w).records k
      ≤ distinctWorkerCount st.records k := by
  unfold remove_workset_from_user_record
  cases h : alookup st.records u with
  | none => simp [h]
  | some rows =>
    simp only [h]
    exact countP_aset_le_of_filter st.records u rows _ k h

theorem distinct_aset_eq (recs : List (String × List TaskRow)) (u : String)
    (rows' : List TaskRow) (k : String)
    (hsome : ∀ old, alookup recs u = some old →
      recordUsesWorkset rows' k = recordUsesWorkset old k)
    (hnone : alookup recs u = none → recordUsesWorkset rows' k = false) :
    distinctWorkerCount (aset recs u rows') k = distinctWorkerCount recs k := by
  cases h : alookup recs u with
  | none =>
    have h0 := hnone h
    unfold distinctWorkerCount
    rw [countP_aset_none recs u rows' _ h]
    simp [h0]
  | some old =>
    have he := hsome old h
    have hs := countP_aset_some recs u rows' old (fun q => recordUsesWorkset q.2 k) h
    unfold distinctWorkerCount
    simp only [he] at hs
    omega

theorem distinct_add_le_max (recs : List (String × List TaskRow)) (u w k : String)
    (hlt : distinctWorkerCount recs w < 3) :
    distinctWorkerCount (aset recs u ((alookup recs u).getD [] ++ [newTaskRow w])) k
      ≤ max (distinctWorkerCount recs k) 3 := by
  by_cases hk : k = w
  · subst hk
    have hle := countP_aset_le recs u ((alookup recs u).getD [] ++ [newTaskRow k])
      (fun q => recordUsesWorkset q.2 k)
    have hite : (if recordUsesWorkset ((alookup recs u).getD [] ++ [newTaskRow k]) k
        then (1 : Nat) else 0) ≤ 1 := by
      split <;> omega
    have hbound : distinctWorkerCount
        (aset recs u ((alookup recs u).getD [] ++ [newTaskRow k])) k ≤ 3 := by
      unfold distinctWorkerCount at hlt ⊢
      simp only at hle
      omega
    exact le_trans hbound (le_max_right _ _)
  · rw [distinct_aset_eq recs u _ k ?_ ?_]
    · exact le_max_left _ _
    · intro old hold
      rw [hold]
      exact recordUses_append_ne old w k hk
    · intro hn
      rw [hn]
      have hwk : (w == k) = false := by
        simpa using fun hh => hk hh.symm
      simp [recordUsesWorkset, newTaskRow, hwk]

theorem distinct_commit_le (st : StoreState) (u w : String) (env : CommitEnv) (k : String) :
    distinctWorkerCount ((complete_workset_assignment st u w env).2).records k
      ≤ max (distinctWorkerCount st.records k) 3 := by
  unfold complete_workset_assignment
  dsimp only
  split
  · exact le_max_left _ _
  · split
    · exact le_max_left _ _
    · rename_i hcomp husage
      have hlt : distinctWorkerCount st.records w < 3 := by
        cases hE : env.realTimeErr with
        | true =>
          rw [hE] at husage
          simp [get_real_time_usage_count] at husage
        | false =>
          rw [hE] at husage
          simp [get_real_time_usage_count] at husage
          omega
      split
      · dsimp only
        rw [records_update_safely]
        exact le_max_left _ _
      · split
        · rename_i haddfail
          have hA : env.addRowOk = false := by
            simpa [fst_add_record] using haddfail
          dsimp only
          rw [records_rollback, hA, records_add_record_false, records_update_safely]
          exact le_max_left _ _
        · rename_i haddok
          have hA : env.addRowOk = true := by
            simpa [fst_add_record] using haddok
          split
          · dsimp only
            refine le_trans (distinct_remove_le _ u w k) ?_
            rw [records_rollback, records_create_workset_file, hA,
              records_add_record_true]
            simp only [records_update_safely]
            exact distinct_add_le_max st.records u w k hlt
          · dsimp only
            rw [records_log_assignment, records_create_workset_file, hA,
              records_add_record_true]
            simp only [records_update_safely]
            exact distinct_add_le_max st.records u w k hlt

theorem distinct_attempts_le (u k : String) :
    ∀ (envs : List AttemptEnv) (st : StoreState),
      distinctWorkerCount ((requestAttempts st u envs).2).records k
        ≤ max (distinctWorkerCount st.records k) 3 := by
  intro envs
  induction envs with
  | nil =>
    intro st
    exact le_max_left _ _
  | cons env rest ih =>
    intro st
    rw [requestAttempts]
    dsimp only
    split
    · dsimp only
      rw [records_find_available]
      exact le_max_left _ _
    · rename_i w hw
      split
      · split
        · split
          · dsimp only
            have h1 := distinct_commit_le
              (is_workset_still_available
                (try_acquire_workset_lock (find_available_workset st u).2 w u env.lockWon).2
                w).2 u w env.commit k
            rw [records_is_still_available, records_try_acquire, records_find_available] at h1
            rw [records_release]
            exact h1
          · refine le_trans (ih _) ?_
            have h1 := distinct_commit_le
              (is_workset_still_available
                (try_acquire_workset_lock (find_available_workset st u).2 w u env.lockWon).2
                w).2 u w env.commit k
            rw [records_is_still_available, records_try_acquire, records_find_available] at h1
            rw [records_release]
            omega
        · refine le_trans (ih _) ?_
          rw [records_release, records_is_still_available, records_try_acquire,
            records_find_available]
      · refine le_trans (ih _) ?_
        rw [records_try_acquire, records_find_available]

theorem distinct_request_le (st : StoreState) (u : String) (envs : List AttemptEnv)
    (k : String) :
    distinctWorkerCount ((request_new_workset st u envs).2).records k
      ≤ max (distinctWorkerCount st.records k) 3 := by
  unfold request_new_workset
  split
  · exact le_max_left _ _
  · exact distinct_attempts_le u k envs st

theorem rowsFor_aset (recs : List (String × List TaskRow)) (u : String)
    (rows' : List TaskRow) (K : String) :
    rowsFor (aset recs u rows') u K = rows'.filter (fun r => r.workset == K) := by
  unfold rowsFor
  rw [alookup_aset_self]
  rfl

theorem has_completed_aset (recs : List (String × List TaskRow)) (u : String)
    (rows' : List TaskRow) (K : String) :
    has_completed_workset (aset recs u rows') u K
      = rows'.any (fun r => r.workset == K && r.status == Status.completed) := by
  unfold has_completed_workset
  rw [alookup_aset_self]

theorem filter_K_append (old : List TaskRow) (c K : String) (hck : c ≠ K) :
    (old ++ [newTaskRow c]).filter (fun r => r.workset == K)
      = old.filter (fun r => r.workset == K) := by
  have h0 : ((newTaskRow c).workset == K) = false := by
    simp [newTaskRow]
    exact fun hh => hck hh
  rw [List.filter_append]
  simp [h0]

theorem filter_K_removal (rows : List TaskRow) (c K : String) (hck : c ≠ K) :
    (rows.filter (fun r => !(r.workset == c && r.autoAssigned))).filter
        (fun r => r.workset == K)
      = rows.filter (fun r => r.workset == K) := by
  rw [List.filter_filter]
  apply List.filter_congr
  intro r hr
  by_cases hK : (r.workset == K) = true
  · have hrc : (r.workset == c) = false := by
      have hwk := beq_iff_eq.mp hK
      rw [hwk]
      simp
      exact fun hh => hck hh.symm
    simp [hK, hrc]
  · have hK' : (r.workset == K) = false := by simpa using hK
    simp [hK']

theorem anyKC_append (old : List TaskRow) (c K : String) :
    (old ++ [newTaskRow c]).any (fun r => r.workset == K && r.status == Status.completed)
      = old.any (fun r => r.workset == K && r.status == Status.completed) := by
  simp [List.any_append, newTaskRow]

theorem anyKC_filter (rows : List TaskRow) (c K : String) (hck : c ≠ K) :
    (rows.filter (fun r => !(r.workset == c && r.autoAssigned))).any
        (fun r => r.workset == K && r.status == Status.completed)
      = rows.any (fun r => r.workset == K && r.status == Status.completed) := by
  rw [List.any_filter]
  refine Bool.eq_iff_iff.mpr ?_
  constructor
  · intro h
    rw [List.any_eq_true] at h ⊢
    obtain ⟨r, hr, hp⟩ := h
    exact ⟨r, hr, ((Bool.and_eq_true _ _).mp hp).2⟩
  · intro h
    rw [List.any_eq_true] at h ⊢
    obtain ⟨r, hr, hp⟩ := h
    refine ⟨r, hr, ?_⟩
    have hK := ((Bool.and_eq_true _ _).mp hp).1
    have hrc : (r.workset == c) = false := by
      have hwk := beq_iff_eq.mp hK
      rw [hwk]
      simp
      exact fun hh => hck hh.symm
    simp [hrc, hp]

theorem rowsFor_after_add (recs : List (String × List TaskRow)) (u c K : String)
    (hck : c ≠ K) :
    rowsFor (aset recs u ((alookup recs u).getD [] ++ [newTaskRow c])) u K
      = rowsFor recs u K := by
  rw [rowsFor_aset, filter_K_append _ _ _ hck]
  rfl

theorem rowsFor_after_remove (recs : List (String × List TaskRow)) (u c K : String)
    (hck : c ≠ K) :
    rowsFor (aset (aset recs u ((alookup recs u).getD [] ++ [newTaskRow c])) u
        (((alookup recs u).getD [] ++ [newTaskRow c]).filter
          (fun r => !(r.workset == c && r.autoAssigned)))) u K
      = rowsFor recs u K := by
  rw [rowsFor_aset, filter_K_removal _ _ _ hck, filter_K_append _ _ _ hck]
  rfl

theorem hc_after_add (recs : List (String × List TaskRow)) (u c K : String) :
    has_completed_workset (aset recs u ((alookup recs u).getD [] ++ [newTaskRow c])) u K
      = has_completed_workset recs u K := by
  rw [has_completed_aset, anyKC_append]
  unfold has_completed_workset
  cases h : alookup recs u with
  | none => simp [h]
  | some rows => simp [h]

theorem hc_after_remove (recs : List (String × List TaskRow)) (u c K : String)
    (hck : c ≠ K) :
    has_completed_workset (aset (aset recs u ((alookup recs u).getD [] ++ [newTaskRow c])) u
        (((alookup recs u).getD [] ++ [newTaskRow c]).filter
          (fun r => !(r.workset == c && r.autoAssigned)))) u K
      = has_completed_workset recs u K := by
  rw [has_completed_aset, anyKC_filter _ _ _ hck, anyKC_append]
  unfold has_completed_workset
  cases h : alookup recs u with
  | none => simp [h]
  | some rows => simp [h]

theorem records_remove_some (st : StoreState) (u w : String) (rows : List TaskRow)
    (h : alookup st.records u = some rows) :
    (remove_workset_from_user_record st u w).records
      = aset st.records u (rows.filter (fun r => !(r.workset == w && r.autoAssigned))) := by
  unfold remove_workset_from_user_record
  simp only [h]

theorem records_remove_of_records_eq (st' : StoreState) (u w : String)
    (rows : List TaskRow) (base : List (String × List TaskRow))
    (h : st'.records = aset base u rows) :
    (remove_workset_from_user_record st' u w).records
      = aset (aset base u rows) u
          (rows.filter (fun r => !(r.workset == w && r.autoAssigned))) := by
  have h3 : alookup st'.records u = some rows := by
    rw [h, alookup_aset_self]
  rw [records_remove_some st' u w rows h3, h]

theorem records_commit_shape (st : StoreState) (u c : String) (env : CommitEnv) :
    (complete_workset_assignment st u c env).2.records = st.records ∨
    (complete_workset_assignment st u c env).2.records
        = aset st.records u ((alookup st.records u).getD [] ++ [newTaskRow c]) ∨
    (complete_workset_assignment st u c env).2.records
        = aset (aset st.records u ((alookup st.records u).getD [] ++ [newTaskRow c])) u
            (((alookup st.records u).getD [] ++ [newTaskRow c]).filter
              (fun r => !(r.workset == c && r.autoAssigned))) := by
  unfold complete_workset_assignment
  dsimp only
  split
  · exact Or.inl rfl
  · split
    · exact Or.inl rfl
    · split
      · exact Or.inl (records_update_safely st c _)
      · split
        · rename_i haddfail
          have hA : env.addRowOk = false := by
            simpa [fst_add_record] using haddfail
          refine Or.inl ?_
          rw [records_rollback, hA, records_add_record_false]
          exact records_update_safely st c _
        · rename_i haddok
          have hA : env.addRowOk = true := by
            simpa [fst_add_record] using haddok
          split
          · refine Or.inr (Or.inr ?_)
            exact records_remove_of_records_eq _ u c _ st.records (by
              rw [records_rollback, records_create_workset_file, hA, records_add_record_true]
              simp only [records_update_safely])
          · refine Or.inr (Or.inl ?_)
            rw [records_log_assignment, records_create_workset_file, hA,
              records_add_record_true]
            simp only [records_update_safely]

theorem commit_preserves_other (st : StoreState) (u c K : String) (env : CommitEnv)
    (hck : c ≠ K) :
    rowsFor ((complete_workset_assignment st u c env).2).records u K
        = rowsFor st.records u K ∧
    has_completed_workset ((complete_workset_assignment st u c env).2).records u K
      = has_completed_workset st.records u K := by
  rcases records_commit_shape st u c env with h | h | h
  · rw [h]
    exact ⟨rfl, rfl⟩
  · rw [h]
    exact ⟨rowsFor_after_add st.records u c K hck, hc_after_add st.records u c K⟩
  · rw [h]
    exact ⟨rowsFor_after_remove st.records u c K hck, hc_after_remove st.records u c K hck⟩

theorem find_candidate_not_completed (st : StoreState) (u w : String)
    (hw : (find_available_workset st u).1 = some w) :
    has_completed_workset st.records u w = false := by
  have hq : (find_available_workset st u).1
      = ((List.range' 1 100).find?
          (eligibleWorkset (get_usage_statistics st).1 st.records u)).map worksetName := by
    unfold find_available_workset
    dsimp only
    rw [records_get_usage_statistics]
  rw [hq] at hw
  rcases Option.map_eq_some'.mp hw with ⟨i, hfind, hname⟩
  have hel := List.find?_some hfind
  have hnc : has_completed_workset st.records u (worksetName i) = false := by
    have h2 := ((Bool.and_eq_true _ _).mp hel).2
    simpa using h2
  rw [← hname]
  exact hnc

theorem attempts_completed_skip (u K : String) :
    ∀ (envs : List AttemptEnv) (st : StoreState),
      has_completed_workset st.records u K = true →
      (requestAttempts st u envs).1 ≠ some K ∧
      rowsFor ((requestAttempts st u envs).2).records u K = rowsFor st.records u K := by
  intro envs
  induction envs with
  | nil =>
    intro st h
    exact ⟨by rw [requestAttempts]; simp, rfl⟩
  | cons env rest ih =>
    intro st h
    rw [requestAttempts]
    dsimp only
    split
    · constructor
      · simp
      · dsimp only
        rw [records_find_available]
    · rename_i w hw
      have hwK : w ≠ K := by
        intro hcon
        have hnc := find_candidate_not_completed st u w hw
        rw [hcon, h] at hnc
        simp at hnc
      split
      · split
        · split
          · rename_i hcommit
            constructor
            · intro hcon
              simp only [Option.some.injEq] at hcon
              exact hwK hcon
            · dsimp only
              rw [records_release, (commit_preserves_other _ u w K env.commit hwK).1,
                records_is_still_available, records_try_acquire, records_find_available]
          · constructor
            · exact (ih _ (by
                rw [records_release, (commit_preserves_other _ u w K env.commit hwK).2,
                  records_is_still_available, records_try_acquire, records_find_available]
                exact h)).1
            · rw [(ih _ (by
                rw [records_release, (commit_preserves_other _ u w K env.commit hwK).2,
                  records_is_still_available, records_try_acquire, records_find_available]
                exact h)).2]
              rw [records_release, (commit_preserves_other _ u w K env.commit hwK).1,
                records_is_still_available, records_try_acquire, records_find_available]
        · constructor
          · exact (ih _ (by
              rw [records_release, records_is_still_available, records_try_acquire,
                records_find_available]
              exact h)).1
          · rw [(ih _ (by
              rw [records_release, records_is_still_available, records_try_acquire,
                records_find_available]
              exact h)).2]
            rw [records_release, records_is_still_available, records_try_acquire,
              records_find_available]
      · constructor
        · exact (ih _ (by
            rw [records_try_acquire, records_find_available]
            exact h)).1
        · rw [(ih _ (by
            rw [records_try_acquire, records_find_available]
            exact h)).2]
          rw [records_try_acquire, records_find_available]

theorem update_no_regen (st : StoreState) (w : String) (expected : Nat)
    (hnear : Nat.dist (lookupCount (st.usageStats.getD []) w) expected ≤ 1) :
    update_usage_statistics_safely st w expected
      = if lookupCount (st.usageStats.getD []) w + 1 > 3 then (false, st)
        else (true, { st with usageStats := some (aset (st.usageStats.getD []) w (lookupCount (st.usageStats.getD []) w + 1)) }) := by
  unfold update_usage_statistics_safely
  dsimp only
  have hr : ¬ (Nat.dist (lookupCount (st.usageStats.getD []) w) expected > 1) := by omega
  simp only [if_neg hr]

theorem rollback_after_increment (st : StoreState) (w : String)
    (m0 : List (String × Nat)) (c0 : Nat)
    (hnd : (m0.map Prod.fst).Nodup) (hm : st.usageStats = some (aset m0 w (c0 + 1))) :
    lookupCount ((rollback_usage_statistics st w).usageStats.getD []) w = c0 := by
  unfold rollback_usage_statistics
  simp only [hm, akey_aset_self, if_true, lookupCount_aset_self]
  by_cases h0 : c0 + 1 ≤ 1
  · rw [if_pos h0]
    dsimp only
    have hc00 : c0 = 0 := by omega
    unfold lookupCount
    simp only [Option.getD_some]
    rw [aremove_aset m0 w (c0 + 1), alookup_aremove_self m0 w hnd]
    simp [hc00]
  · rw [if_neg h0]
    dsimp only
    simp only [Option.getD_some]
    rw [lookupCount_aset_self]
    omega

theorem filter_after_add_remove_nil (old : List TaskRow) (w : String)
    (hold : old.filter (fun r => r.workset == w) = []) :
    ((old ++ [newTaskRow w]).filter (fun r => !(r.workset == w && r.autoAssigned))).filter
        (fun r => r.workset == w) = [] := by
  rw [List.filter_filter, List.filter_append]
  have h1 : old.filter
      (fun a => (a.workset == w) && !(a.workset == w && a.autoAssigned)) = [] := by
    rw [List.filter_eq_nil_iff]
    intro a ha
    have hna := List.filter_eq_nil_iff.mp hold a ha
    simp only [Bool.and_eq_true, not_and] at hna ⊢
    intro hcon
    exact absurd hcon hna
  have h2 : List.filter
      (fun a => (a.workset == w) && !(a.workset == w && a.autoAssigned)) [newTaskRow w]
      = [] := by
    simp [newTaskRow]
  rw [h1, h2]
  rfl

/-- C4 (amended): when commit step (d) (the record append) or step (e) (the
materializer) fails and the attempt started from an uncorrupted ledger (the
persisted count within 1 of the real-time count, so the self-heal regeneration
does not fire) with no pre-existing row for the candidate in the worker's
record, the compensating rollback restores the candidate's persisted count to
its pre-attempt value and leaves the worker's record with no row for the
candidate; the ledger is never left incremented on a failed commit.  When the
self-heal regeneration does fire, the post-rollback count instead equals the
value freshly derived from the record scan (see the counterexample). -/
theorem rollback_restores_on_commit_failure (st : StoreState) (u w : String)
    (env : CommitEnv)
    (hnd : ((st.usageStats.getD []).map Prod.fst).Nodup)
    (hrows : rowsFor st.records u w = [])
    (herr : env.realTimeErr = false)
    (hnear : Nat.dist (lookupCount (st.usageStats.getD []) w)
      (distinctWorkerCount st.records w) ≤ 1)
    (hfail : env.addRowOk = false ∨ env.materializeOk = false) :
    (complete_workset_assignment st u w env).1 = false ∧
    lookupCount ((complete_workset_assignment st u w env).2.usageStats.getD []) w
      = lookupCount (st.usageStats.getD []) w ∧
    rowsFor ((complete_workset_assignment st u w env).2).records u w = [] := by
  unfold complete_workset_assignment
  dsimp only
  split
  · exact ⟨rfl, rfl, hrows⟩
  · split
    · exact ⟨rfl, rfl, hrows⟩
    · have hcur : get_real_time_usage_count st.records w env.realTimeErr
          = distinctWorkerCount st.records w := by
        simp [get_real_time_usage_count, herr]
      rw [hcur, update_no_regen st w _ hnear]
      by_cases hcap : lookupCount (st.usageStats.getD []) w + 1 > 3
      · rw [if_pos hcap]
        exact ⟨rfl, rfl, hrows⟩
      · rw [if_neg hcap]
        set stInc : StoreState := { st with usageStats := some (aset (st.usageStats.getD []) w (lookupCount (st.usageStats.getD []) w + 1)) } with hstInc
        rcases hfail with hA | hM
        · rw [hA]
          refine ⟨rfl, ?_, ?_⟩
          · show lookupCount ((rollback_usage_statistics stInc w).usageStats.getD []) w
              = lookupCount (st.usageStats.getD []) w
            exact rollback_after_increment stInc w (st.usageStats.getD [])
              (lookupCount (st.usageStats.getD []) w) hnd rfl
          · show rowsFor (rollback_usage_statistics stInc w).records u w = []
            rw [records_rollback]
            exact hrows
        · cases hA : env.addRowOk with
          | false =>
            refine ⟨rfl, ?_, ?_⟩
            · show lookupCount ((rollback_usage_statistics stInc w).usageStats.getD []) w
                = lookupCount (st.usageStats.getD []) w
              exact rollback_after_increment stInc w (st.usageStats.getD [])
                (lookupCount (st.usageStats.getD []) w) hnd rfl
            · show rowsFor (rollback_usage_statistics stInc w).records u w = []
              rw [records_rollback]
              exact hrows
          | true =>
            rw [hM]
            refine ⟨rfl, ?_, ?_⟩
            · show lookupCount ((remove_workset_from_user_record
                  (rollback_usage_statistics (add_workset_to_user_record stInc u w true).2 w)
                  u w).usageStats.getD []) w = lookupCount (st.usageStats.getD []) w
              rw [usageStats_remove_record]
              exact rollback_after_increment _ w (st.usageStats.getD [])
                (lookupCount (st.usageStats.getD []) w) hnd
                (by rw [usageStats_add_record])
            · show rowsFor ((remove_workset_from_user_record
                  (rollback_usage_statistics (add_workset_to_user_record stInc u w true).2 w)
                  u w).records) u w = []
              rw [records_remove_of_records_eq _ u w
                ((alookup st.records u).getD [] ++ [newTaskRow w]) st.records
                (by rw [records_rollback, records_add_record_true]; try rfl), rowsFor_aset]
              exact filter_after_add_remove_nil _ w hrows

/-- Witness for the amended C4 at a concrete store: bob's failed step (d) leaves
workset_001 at its pre-attempt count 1 and bob's record without a row. -/
theorem rollback_restores_on_commit_failure_witness :
    (complete_workset_assignment
        (mkStore [("alice", [sampleRow "workset_001" Status.not_started])]
          (some [("workset_001", 1)])) "bob" "workset_001" ⟨false, false, true⟩).1 = false ∧
    lookupCount ((complete_workset_assignment
        (mkStore [("alice", [sampleRow "workset_001" Status.not_started])]
          (some [("workset_001", 1)])) "bob" "workset_001"
        ⟨false, false, true⟩).2.usageStats.getD []) "workset_001"
      = lookupCount [("workset_001", 1)] "workset_001" ∧
    rowsFor ((complete_workset_assignment
        (mkStore [("alice", [sampleRow "workset_001" Status.not_started])]
          (some [("workset_001", 1)])) "bob" "workset_001"
        ⟨false, false, true⟩).2).records "bob" "workset_001" = [] :=
  rollback_restores_on_commit_failure _ "bob" "workset_001" _
    (by decide) (by decide) rfl (by decide) (Or.inl rfl)

/-- C4 counterexample: the pre-attempt ledger holds count 3 for workset_001
while no record lists it; step (d) then fails.  The self-heal regeneration
inside the increment rewrites the whole ledger from a record scan, so after
the rollback the persisted count is 0, not the pre-attempt value 3: the claim
that the count always equals its pre-attempt value is false on the code. -/
theorem rollback_restores_counterexample :
    (complete_workset_assignment (mkStore [] (some [("workset_001", 3)]))
        "alice" "workset_001" ⟨false, false, true⟩).1 = false ∧
    ¬ (lookupCount ((complete_workset_assignment (mkStore [] (some [("workset_001", 3)]))
        "alice" "workset_001" ⟨false, false, true⟩).2.usageStats.getD []) "workset_001"
      = lookupCount ((mkStore [] (some [("workset_001", 3)])).usageStats.getD [])
          "workset_001") := by
  decide

/-- C2: a worker who has a completed row for a workset id never gets that id
again: `request_new_workset` never returns it, the worker's record keeps
exactly the same rows for that id (no assignment row is appended), and a
direct `_complete_workset_assignment` of that id aborts before any mutation. -/
theorem completed_workset_never_reassigned (st : StoreState) (u K : String)
    (envs : List AttemptEnv) (env : CommitEnv)
    (h : has_completed_workset st.records u K = true) :
    (request_new_workset st u envs).1 ≠ some K ∧
    rowsFor ((request_new_workset st u envs).2).records u K = rowsFor st.records u K ∧
    complete_workset_assignment st u K env = (false, st) := by
  refine ⟨?_, ?_, ?_⟩
  · unfold request_new_workset
    split
    · simp
    · exact (attempts_completed_skip u K envs st h).1
  · unfold request_new_workset
    split
    · rfl
    · exact (attempts_completed_skip u K envs st h).2
  · unfold complete_workset_assignment
    rw [if_pos h]

/-- Witness for C2 at a concrete store where alice completed workset_001. -/
theorem completed_workset_never_reassigned_witness :
    (request_new_workset (mkStore [("alice", [sampleRow "workset_001" Status.completed])] none)
        "alice" [⟨true, ⟨false, true, true⟩⟩]).1 ≠ some "workset_001" ∧
    rowsFor ((request_new_workset
        (mkStore [("alice", [sampleRow "workset_001" Status.completed])] none)
        "alice" [⟨true, ⟨false, true, true⟩⟩]).2).records "alice" "workset_001"
      = rowsFor [("alice", [sampleRow "workset_001" Status.completed])] "alice" "workset_001" ∧
    complete_workset_assignment
        (mkStore [("alice", [sampleRow "workset_001" Status.completed])] none)
        "alice" "workset_001" ⟨false, true, true⟩
      = (false, mkStore [("alice", [sampleRow "workset_001" Status.completed])] none) :=
  completed_workset_never_reassigned _ "alice" "workset_001" _ _ (by decide)

/-- C1: starting from any store in which every workset id has at most 3
distinct assignees among the worker task records, after any sequence of
`request_new_workset` assignment operations every workset id still has at
most 3 distinct assignees: the commit-time real-time check and the capped
ledger increment never let a fourth distinct worker be committed for the same
workset id. -/
theorem cap_never_exceeded (ops : List (String × List AttemptEnv)) (st : StoreState)
    (hcap : ∀ k, distinctWorkerCount st.records k ≤ 3) :
    ∀ k, distinctWorkerCount ((ops.foldl requestStep st).records) k ≤ 3 := by
  induction ops generalizing st with
  | nil => exact hcap
  | cons op rest ih =>
    rw [List.foldl_cons]
    apply ih
    intro k
    have h1 := distinct_request_le st op.1 op.2 k
    have h2 := hcap k
    unfold requestStep
    omega

/-- Witness for C1: one assignment operation from an empty store keeps the
count of workset_001 within the cap. -/
theorem cap_never_exceeded_witness :
    distinctWorkerCount
      ((([("alice", [⟨true, ⟨false, true, true⟩⟩])] : List (String × List AttemptEnv)).foldl
        requestStep (mkStore [] none)).records) "workset_001" ≤ 3 :=
  cap_never_exceeded [("alice", [⟨true, ⟨false, true, true⟩⟩])] (mkStore [] none)
    (fun k => by simp [mkStore, distinctWorkerCount]) "workset_001"

/-- C7: `_generate_usage_statistics` counts each worker at most once per
workset id: for every collection of worker task records, the regenerated
count of an id equals the number of records in which that id appears at
least once, however many rows repeat the id inside one record and whatever
the completion statuses of those rows. -/
theorem regenerate_counts_each_worker_once (recs : List (String × List TaskRow)) (w : String) :
    lookupCount (generate_usage_statistics recs) w = distinctWorkerCount recs w :=
  lookupCount_generate recs w

/-- C6: when the persisted usage-statistics object is absent,
`_get_usage_statistics` does not report zero for everything: it regenerates
the ledger by scanning all worker task records, persists the regenerated
dictionary, and returns counts that equal, for every workset id, the number
of records containing that id. -/
theorem absent_ledger_regenerated (st : StoreState) (h : st.usageStats = none) :
    (get_usage_statistics st).2.usageStats = some (get_usage_statistics st).1 ∧
    ∀ w, lookupCount (get_usage_statistics st).1 w = distinctWorkerCount st.records w := by
  unfold get_usage_statistics
  rw [h]
  exact ⟨rfl, fun w => lookupCount_generate st.records w⟩

/-- Witness for C6 at a concrete store with an absent statistics object. -/
theorem absent_ledger_regenerated_witness :
    (get_usage_statistics
        (mkStore [("alice", [sampleRow "workset_004" Status.completed])] none)).2.usageStats
      = some (get_usage_statistics
        (mkStore [("alice", [sampleRow "workset_004" Status.completed])] none)).1 ∧
    lookupCount (get_usage_statistics
        (mkStore [("alice", [sampleRow "workset_004" Status.completed])] none)).1 "workset_004"
      = distinctWorkerCount
        [("alice", [sampleRow "workset_004" Status.completed])] "workset_004" := by
  refine ⟨(absent_ledger_regenerated _ rfl).1, ?_⟩
  exact (absent_ledger_regenerated _ rfl).2 "workset_004"

/-- C5: `_update_usage_statistics_safely` refuses the increment whenever the
count it observes for the workset (after its self-healing regeneration, when
that fires) plus one would exceed the cap 3, and in that case the persisted
count for the id stays at the observed value instead of the incremented one. -/
theorem increment_refused_beyond_cap (st : StoreState) (w : String) (expected : Nat)
    (h : observedLedgerCount st w expected + 1 > 3) :
    (update_usage_statistics_safely st w expected).1 = false ∧
    lookupCount ((update_usage_statistics_safely st w expected).2.usageStats.getD []) w
      = observedLedgerCount st w expected := by
  have hobs := h
  unfold observedLedgerCount at hobs ⊢
  unfold update_usage_statistics_safely
  dsimp only at hobs ⊢
  by_cases hr : Nat.dist (lookupCount (st.usageStats.getD []) w) expected > 1
  · simp only [if_pos hr] at hobs ⊢
    rw [if_pos hobs]
    exact ⟨rfl, rfl⟩
  · simp only [if_neg hr] at hobs ⊢
    rw [if_pos hobs]
    exact ⟨rfl, rfl⟩

/-- Witness for C5 at a concrete store already holding a count of 3. -/
theorem increment_refused_beyond_cap_witness :
    observedLedgerCount (mkStore [] (some [("workset_001", 3)])) "workset_001" 3 + 1 > 3 ∧
    (update_usage_statistics_safely
        (mkStore [] (some [("workset_001", 3)])) "workset_001" 3).1 = false ∧
    lookupCount ((update_usage_statistics_safely
        (mkStore [] (some [("workset_001", 3)])) "workset_001" 3).2.usageStats.getD [])
        "workset_001"
      = observedLedgerCount (mkStore [] (some [("workset_001", 3)])) "workset_001" 3 := by
  refine ⟨by decide, ?_⟩
  exact increment_refused_beyond_cap _ _ _ (by decide)

/-- C9: a worker whose record holds any not_started or in_progress row is
refused immediately: `request_new_workset` returns no assignment and the
whole store state (records, usage statistics, locks, workset files and log)
is returned unchanged, before any statistics scan or lock activity. -/
theorem pending_worker_fast_fail (st : StoreState) (u : String) (envs : List AttemptEnv)
    (h : has_pending_worksets st.records u = true) :
    request_new_workset st u envs = (none, st) := by
  unfold request_new_workset
  rw [if_pos h]

/-- Witness for C9 at a concrete store with one in_progress row. -/
theorem pending_worker_fast_fail_witness :
    request_new_workset
      (mkStore [("bob", [sampleRow "workset_002" Status.in_progress])] none) "bob"
      [⟨true, ⟨false, true, true⟩⟩]
      = (none, mkStore [("bob", [sampleRow "workset_002" Status.in_progress])] none) :=
  pending_worker_fast_fail _ _ _ (by decide)

theorem scan_all_ok_eq (recs : List (String × List TaskRow)) (w : String) :
    get_real_time_usage_count_scan recs w true (fun _ => true)
      = get_real_time_usage_count recs w false := by
  simp [get_real_time_usage_count_scan, get_real_time_usage_count]

/-- C10 (amended): a store operation failure while computing the commit-time
real-time count never reaches the except → 999 branch, because the storage
helpers catch their own exceptions: a failing `list_files` returns [] so the
count is 0, and a failing `download_csv` merely skips that record file.  The
count is therefore an undercount, the `count ≥ 3` abort does not fire, and the
commit proceeds: whenever the persisted count for the id is at most 1 (so the
capped increment also passes) and the worker has not completed the id, the
assignment is committed — appending the row to the worker's record — despite
the store failure, whatever the actual distinct-worker count in the records. -/
theorem store_failure_scan_commit_proceeds (st : StoreState) (u w : String)
    (fetchOk : String → Bool)
    (hc : has_completed_workset st.records u w = false)
    (hl : lookupCount (st.usageStats.getD []) w ≤ 1) :
    get_real_time_usage_count_scan st.records w false fetchOk = 0 ∧
    (complete_workset_assignment_scan st u w false fetchOk true true).1 = true ∧
    rowsFor ((complete_workset_assignment_scan st u w false fetchOk true true).2).records u w
      = rowsFor st.records u w ++ [newTaskRow w] := by
  refine ⟨rfl, ?_⟩
  unfold complete_workset_assignment_scan
  dsimp only
  rw [hc, if_neg Bool.false_ne_true]
  rw [show get_real_time_usage_count_scan st.records w false fetchOk = 0 from rfl]
  rw [if_neg (show ¬ ((0 : Nat) ≥ 3) by omega)]
  rw [update_no_regen st w 0 (by simp [Nat.dist]; omega)]
  rw [if_neg (show ¬ (lookupCount (st.usageStats.getD []) w + 1 > 3) by omega)]
  set stInc : StoreState := { st with usageStats := some (aset (st.usageStats.getD []) w (lookupCount (st.usageStats.getD []) w + 1)) } with hstInc
  refine ⟨rfl, ?_⟩
  show rowsFor (log_assignment (create_workset_file
      (add_workset_to_user_record stInc u w true).2 u w true).2 u w).records u w
    = rowsFor st.records u w ++ [newTaskRow w]
  rw [records_log_assignment, records_create_workset_file, records_add_record_true,
    rowsFor_aset, List.filter_append]
  have hB : List.filter (fun r => r.workset == w) [newTaskRow w] = [newTaskRow w] := by
    simp [newTaskRow]
  rw [hB]
  rfl

/-- Witness for the amended C10: with three workers already at the cap for
workset_001 and a stale persisted count of 1, a fourth worker's commit under a
failed listing still succeeds and appends the row. -/
theorem store_failure_scan_commit_proceeds_witness :
    get_real_time_usage_count_scan cexRecords "workset_001" false (fun _ => true) = 0 ∧
    (complete_workset_assignment_scan (mkStore cexRecords (some [("workset_001", 1)]))
        "dave" "workset_001" false (fun _ => true) true true).1 = true ∧
    rowsFor ((complete_workset_assignment_scan (mkStore cexRecords (some [("workset_001", 1)]))
        "dave" "workset_001" false (fun _ => true) true true).2).records "dave" "workset_001"
      = rowsFor cexRecords "dave" "workset_001" ++ [newTaskRow "workset_001"] :=
  store_failure_scan_commit_proceeds (mkStore cexRecords (some [("workset_001", 1)]))
    "dave" "workset_001" (fun _ => true) (by decide) (by decide)

/-- C10 counterexample: with the store's listing failing during the final
availability check, `_get_real_time_usage_count` yields 0, not 999, and the
commit goes through — here even committing a fourth distinct worker for a
workset already at the cap — so a store error during the final check CAN
result in a committed assignment, refuting the claim as stated. -/
theorem store_error_aborts_counterexample :
    get_real_time_usage_count_scan cexRecords "workset_001" false (fun _ => true) = 0 ∧
    ¬ (get_real_time_usage_count_scan cexRecords "workset_001" false (fun _ => true) = 999) ∧
    (complete_workset_assignment_scan (mkStore cexRecords (some [("workset_001", 1)]))
        "dave" "workset_001" false (fun _ => true) true true).1 = true ∧
    distinctWorkerCount
      ((complete_workset_assignment_scan (mkStore cexRecords (some [("workset_001", 1)]))
        "dave" "workset_001" false (fun _ => true) true true).2).records "workset_001" = 4 := by
  decide

end AnnotationTool
